import Mathlib

/-!
Shallow embedding of the ntt test scheduler (src/run.go and the ttcn3
ParseFile shown in src/unnamed/part_000), together with theorems checking
the specification's claims about it.

Modelling conventions:
* Go `time.Time` values are modelled as `Int` (a point on a global clock).
  `time.Now()` observed while the aggregation loop processes a result is
  carried on the result itself as the field `arrival`.
* The Go map `stamps` is modelled as an association list inserted-on-miss,
  which matches the source: an entry is written only when the lookup missed.
* `errorCount` is a Go `uint64` incremented at most once per received
  result; a run would need 2^64 results to wrap it, so it is modelled as
  `Nat`.
* Rendering side effects (Printf lines) carry no state and are omitted;
  the ticker branch of the select mutates no state either, so the loop is
  modelled as a fold over the sequence of received results.
-/

namespace Ntt

/-- Events of the `tests` package as used by `nttRun`: `StartEvent`,
`StopEvent` (with a verdict string) and `ErrorEvent` (with a cause
message).  Each event may wrap a job whose name is used for display
(`tests.UnwrapJob`); `time` is the event's own timestamp (`Event.Time()`). -/
inductive Event where
  | start (wrapped : Option String) (time : Int)
  | stop (wrapped : Option String) (verdict : String) (time : Int)
  | error (wrapped : Option String) (reason : String) (time : Int)
  deriving DecidableEq, Repr

/-- `Event.Time()`. -/
def Event.time : Event → Int
  | .start _ t => t
  | .stop _ _ t => t
  | .error _ _ t => t

/-- The `_, isStartEvent := res.Event.(tests.StartEvent)` type test. -/
def Event.isStart : Event → Bool
  | .start _ _ => true
  | _ => false

/-- `tests.UnwrapJob(res.Event)`: the name of the job wrapped in the event,
if any. -/
def Event.unwrapJob : Event → Option String
  | .start w _ => w
  | .stop w _ _ => w
  | .error w _ _ => w

/-- A `run.Result` as consumed by the aggregation loop: `res.Job.ID()`,
`res.Job.Name`, `res.Test.Dir`, the observed event, and the wall-clock
instant `arrival` at which the loop processes the result (the value
`time.Now()` returns there). -/
structure Result where
  jobId : String
  jobName : String
  testDir : String
  event : Event
  arrival : Int
  deriving DecidableEq, Repr

/-- Modelled from the spec: `tests.IsPass` lives in the external `tests`
package (not under src/).  Per the spec, the error counter is updated "if
the verdict is not the pass verdict or the event is an Error", and a Start
event never changes it: Start counts as passing, a Stop passes iff its
verdict is the pass verdict, an Error never passes. -/
def IsPass : Event → Bool
  | .start _ _ => true
  | .stop _ v _ => v == "pass"
  | .error _ _ _ => false

/-- A ledger entry (`results.Run`). -/
structure Run where
  Name : String
  Verdict : String
  Begin : Int
  End : Int
  WorkingDir : String
  Reason : String
  deriving DecidableEq, Repr

/-- Mutable state owned by the aggregation loop of `nttRun`: the error
counter, the `stamps` map of first-observation times, the `Runs` ledger,
and whether `cancel()` has been invoked by the circuit breaker. -/
structure LoopState where
  errorCount : Nat
  stamps : List (String × Int)
  runs : List Run
  cancelled : Bool
  deriving DecidableEq, Repr

/-- Lookup in the modelled `stamps` map. -/
def lookupStamp : List (String × Int) → String → Option Int
  | [], _ => none
  | (k, v) :: rest, id => if k = id then some v else lookupStamp rest id

/-- The display name computed by the loop: the name of a job wrapped in the
event when non-empty, else the result's own job name. -/
def displayNameOf (res : Result) : String :=
  match res.event.unwrapJob with
  | some n => if n ≠ "" then n else res.jobName
  | none => res.jobName

/-- The verdict string recorded by the loop: initialised to "none",
overwritten to "fatal" for an `ErrorEvent` and to the verdict of a
`StopEvent` when that verdict is non-empty. -/
def displayVerdictOf : Event → String
  | .error _ _ _ => "fatal"
  | .stop _ v _ => if v ≠ "" then v else "none"
  | .start _ _ => "none"

/-- The `Reason` recorded in the ledger: an `ErrorEvent`'s message, else
the zero value. -/
def reasonOf : Event → String
  | .error _ m _ => m
  | _ => ""

/-- One iteration of the result branch of `nttRun`'s select: update the
error counter, resolve `begin`/`end` from `stamps`, build the
`results.Run` value, append it to the ledger unless the event is a Start,
and fire the circuit breaker (`cancel()` and `break L`, signalled by the
returned `Bool`) when `MaxFail > 0` and the counter has reached it. -/
def processResult (maxFail : Nat) (s : LoopState) (res : Result) :
    LoopState × Bool :=
  let errorCount := if IsPass res.event then s.errorCount else s.errorCount + 1
  let endT := res.event.time
  let beginT :=
    match lookupStamp s.stamps res.jobId with
    | some b => b
    | none => endT
  let stamps :=
    match lookupStamp s.stamps res.jobId with
    | some _ => s.stamps
    | none => (res.jobId, res.arrival) :: s.stamps
  let entry : Run :=
    { Name := displayNameOf res
      Verdict := displayVerdictOf res.event
      Begin := beginT
      End := endT
      WorkingDir := res.testDir
      Reason := reasonOf res.event }
  let runs := if res.event.isStart then s.runs else s.runs ++ [entry]
  let s' : LoopState :=
    { errorCount := errorCount, stamps := stamps, runs := runs
      cancelled := s.cancelled }
  if 0 < maxFail ∧ maxFail ≤ errorCount then
    ({ s' with cancelled := true }, true)
  else
    (s', false)

/-- The aggregation loop of `nttRun` over the sequence of results received
from the runner's channel, with the early `break L` of the circuit
breaker. -/
def runLoop (maxFail : Nat) : LoopState → List Result → LoopState
  | s, [] => s
  | s, r :: rs =>
    match processResult maxFail s r with
    | (s', true) => s'
    | (s', false) => runLoop maxFail s' rs

/-- The results the loop actually consumes before exiting (all of them, or
the prefix up to and including the event on which the breaker fires). -/
def processedResults (maxFail : Nat) : LoopState → List Result → List Result
  | _, [] => []
  | s, r :: rs =>
    match processResult maxFail s r with
    | (_, true) => [r]
    | (s', false) => r :: processedResults maxFail s' rs

/-- The sequence of loop states after each processed result. -/
def runTrace (maxFail : Nat) : LoopState → List Result → List LoopState
  | _, [] => []
  | s, r :: rs =>
    match processResult maxFail s r with
    | (s', true) => [s']
    | (s', false) => s' :: runTrace maxFail s' rs

/-- The loop state at the top of `nttRun`: counter zero, empty `stamps`,
empty ledger, not cancelled. -/
def initState : LoopState :=
  { errorCount := 0, stamps := [], runs := [], cancelled := false }

/-- The value `nttRun` returns after the loop: `nil` on a zero error
counter, else an error wrapping `ErrCommandFailed` and the counter. -/
inductive RunResult where
  | success
  | commandFailed (errorCount : Nat)
  deriving DecidableEq, Repr

/-- `nttRun`'s return value as a function of the received results. -/
def nttRunResult (maxFail : Nat) (rs : List Result) : RunResult :=
  let s := runLoop maxFail initState rs
  if 0 < s.errorCount then .commandFailed s.errorCount else .success

/-- Number of results whose event fails `IsPass` — exactly the results on
which the source increments `errorCount`. -/
def countFail (rs : List Result) : Nat :=
  (rs.filter fun r => !IsPass r.event).length

/-- Number of terminal (non-Start) results whose recorded verdict is not
the pass verdict — the quantity the spec says the error counter equals. -/
def countNonPassTerminal (rs : List Result) : Nat :=
  (rs.filter fun r =>
    !r.event.isStart && !(displayVerdictOf r.event == "pass")).length

/-- Number of terminal (non-Start) results. -/
def countTerminal (rs : List Result) : Nat :=
  (rs.filter fun r => !r.event.isStart).length

/-! ## Specification-side descriptions of the loop's observable behaviour

These definitions restate, independently of the threaded loop state, what
the spec claims the loop computes; the theorems below relate them to the
loop embedding. -/

/-- The shortest prefix of the result stream whose running failure count
(started at `acc`) reaches `k`, if any: the prefix after which the spec
says the circuit breaker must have fired. -/
def firstBreach (k : Nat) : Nat → List Result → Option (List Result)
  | _, [] => none
  | acc, r :: rs =>
    let acc' := if IsPass r.event then acc else acc + 1
    if k ≤ acc' then some [r]
    else
      match firstBreach k acc' rs with
      | some p => some (r :: p)
      | none => none

/-- The arrival instant of the first result carrying the given job id, if
the id occurs: the "time the job's id was first observed". -/
def firstArrival (id : String) : List Result → Option Int
  | [] => none
  | r :: rs => if r.jobId = id then some r.arrival else firstArrival id rs

/-- The ledger entry the spec prescribes for a result observed after the
prefix `pre`: `End` is the event's own timestamp, `Begin` is the instant
the job's id was first observed within `pre` — or `End` itself when this
result is the id's first observation. -/
def entrySpec (pre : List Result) (r : Result) : Run :=
  { Name := displayNameOf r
    Verdict := displayVerdictOf r.event
    Begin :=
      match firstArrival r.jobId pre with
      | some t => t
      | none => r.event.time
    End := r.event.time
    WorkingDir := r.testDir
    Reason := reasonOf r.event }

/-- The ledger the spec prescribes for a processed result sequence, one
entry per terminal event, none for Start events, threading the observation
prefix. -/
def terminalEntriesAux : List Result → List Result → List Run
  | _, [] => []
  | pre, r :: rs =>
    let rest := terminalEntriesAux (pre ++ [r]) rs
    if r.event.isStart then rest else entrySpec pre r :: rest

/-- `terminalEntriesAux` starting from an empty observation history. -/
def terminalEntries (ps : List Result) : List Run :=
  terminalEntriesAux [] ps

/-- The ledger entry `processResult` appends for a terminal result, as a
function of the pre-state (used to relate the loop to `entrySpec`). -/
def entryOf (s : LoopState) (r : Result) : Run :=
  { Name := displayNameOf r
    Verdict := displayVerdictOf r.event
    Begin :=
      match lookupStamp s.stamps r.jobId with
      | some b => b
      | none => r.event.time
    End := r.event.time
    WorkingDir := r.testDir
    Reason := reasonOf r.event }

/-! ## Identifier generation (`GenerateIDs` and its helpers) -/

/-- The external basket predicate `Basket.Match(id, tags)`
(`doc.FindAllTags` returns a list of tag tuples). -/
def Basket : Type := String → List (List String) → Bool

/-- One definition in a parsed tree, as seen by the generators: its
qualified name (`def.Tree.QualifiedName(def.Ident)`), the tags found on
its leading comments (`doc.FindAllTags(ast.FirstToken(def.Node).Comments())`),
and whether the `*ast.FuncDecl` node satisfies `IsTest()`. -/
structure Definition where
  id : String
  tags : List (List String)
  isTest : Bool
  deriving DecidableEq, Repr

/-- A parsed source file as seen by the generators: the nodes yielded by
`tree.Funcs()` and by `tree.Controls()`. -/
structure SrcTree where
  funcs : List Definition
  controls : List Definition
  deriving DecidableEq, Repr

/-- `generate`'s emission when the channel is fully consumed: the id is
sent iff the basket matches it.  (The cancellation path of `generate` is
modelled separately below for the cancellation claim.) -/
def generateOne (b : Basket) (d : Definition) : List String :=
  if b d.id d.tags then [d.id] else []

/-- `GenerateTestsWithContext` with the channel fully consumed: for each
file, every `Funcs()` node that `IsTest()`, filtered through the basket. -/
def GenerateTestsList (b : Basket) (files : List SrcTree) : List String :=
  files.flatMap fun t => (t.funcs.filter (·.isTest)).flatMap (generateOne b)

/-- `GenerateControlsWithContext` with the channel fully consumed: for
each file, every `Controls()` node, filtered through the basket. -/
def GenerateControlsList (b : Basket) (files : List SrcTree) : List String :=
  files.flatMap fun t => t.controls.flatMap (generateOne b)

/-- `strings.ToLower` restricted to the ASCII range that the policy
values use, written over the character list so it evaluates by
reduction. -/
def toLowerStr (s : String) : String :=
  String.mk (s.data.map Char.toLower)

/-- `strings.TrimSpace`: drop leading and trailing whitespace. -/
def trimStr (s : String) : String :=
  String.mk
    (((s.data.dropWhile Char.isWhitespace).reverse.dropWhile
        Char.isWhitespace).reverse)

/-- `GenerateIDs`: lower-case and trim the policy, then: a non-empty
explicit id list wins; else policy "old" selects control parts; else test
cases. -/
def GenerateIDs (ids : List String) (files : List SrcTree) (policy : String)
    (b : Basket) : List String :=
  let policy := toLowerStr policy
  let policy := trimStr policy
  if ids.length > 0 then ids
  else if policy = "old" then GenerateControlsList b files
  else GenerateTestsList b files

/-!
## Cancellation behaviour of the generator goroutines

The goroutines are modelled under the graceful-shutdown schedule the spec
describes: the consumer receives `accept` identifiers, then the context is
cancelled and the consumer stops receiving.  From that point a plain
channel send (`out <- id`, used by `GenerateIDsWithContext`) can never
proceed — the goroutine blocks forever — while the
`select {case c <- id: case <-ctx.Done(): return}` inside `generate` has
only its `Done` branch enabled and returns.  Each model returns the list
of identifiers the consumer received and whether the goroutine
terminated.
-/

/-- The goroutine body of `GenerateIDsWithContext` under the schedule
above.  The source sends every id with a bare `out <- id` and never
consults `ctx`, so once the consumer is gone the send blocks forever
(termination flag `false`). -/
def GenerateIDsRun : Nat → List String → List String × Bool
  | _, [] => ([], true)
  | 0, _ :: _ => ([], false)
  | n + 1, id :: ids =>
    let p := GenerateIDsRun n ids
    (id :: p.1, p.2)

/-- `generate` applied to each definition of one file under the schedule
above: a matching id is delivered while the consumer still receives;
afterwards the `ctx.Done()` branch fires and `generate` returns `false`,
which makes the caller's goroutine return (flag `true` in the middle
component).  Returns (ids received, accepts left, aborted-via-Done). -/
def genFileRun (b : Basket) : Nat → List Definition → List String × Nat × Bool
  | n, [] => ([], n, false)
  | n, d :: ds =>
    if b d.id d.tags then
      match n with
      | 0 => ([], 0, true)
      | m + 1 =>
        let p := genFileRun b m ds
        (d.id :: p.1, p.2.1, p.2.2)
    else genFileRun b n ds

/-- The goroutine body of `GenerateTestsWithContext` under the schedule
above: files in order; when `generate` returns `false` the goroutine
returns at once, abandoning the remaining files.  Returns (ids received,
goroutine terminated). -/
def GenerateTestsRun (b : Basket) : Nat → List SrcTree → List String × Bool
  | _, [] => ([], true)
  | n, t :: ts =>
    let p := genFileRun b n (t.funcs.filter (·.isTest))
    if p.2.2 then (p.1, true)
    else
      let q := GenerateTestsRun b p.2.1 ts
      (p.1 ++ q.1, q.2)

/-- The goroutine body of `GenerateControlsWithContext` under the schedule
above. -/
def GenerateControlsRun (b : Basket) : Nat → List SrcTree → List String × Bool
  | _, [] => ([], true)
  | n, t :: ts =>
    let p := genFileRun b n t.controls
    if p.2.2 then (p.1, true)
    else
      let q := GenerateControlsRun b p.2.1 ts
      (p.1 ++ q.1, q.2)

/-! ## Run persistence (`FlushTestResults`) -/

/-- A `results.Session`. -/
structure Session where
  Id : String
  MaxJobs : Nat
  ExpectedVerdict : String
  Runs : List Run
  deriving DecidableEq, Repr

/-- A `results.DB`, the versioned artifact envelope. -/
structure DB where
  Version : String
  Sessions : List Session
  deriving DecidableEq, Repr

/-- `FlushTestResults`: wrap the ledger into a single-session version-1
`RunDB`. -/
def FlushTestResults (maxWorkers : Nat) (runs : List Run) : DB :=
  { Version := "1"
    Sessions := [{ Id := "1", MaxJobs := maxWorkers,
                   ExpectedVerdict := "pass", Runs := runs }] }

/-- State of the fixed results path `cache.Lookup("test_results.json")`:
`none` when absent, `some db` when holding an artifact. -/
def removeArtifact (_ : Option DB) : Option DB := none

/-- Writing the artifact overwrites whatever the path held. -/
def writeArtifact (db : DB) (_ : Option DB) : Option DB := some db

/-- The file-system effect of `nttRun` on the results path: `os.Remove`
before the loop starts, then the deferred `FlushTestResults` at exit.
Returns (path state while the loop runs, path state after `nttRun`). -/
def nttRunArtifact (initial : Option DB) (maxWorkers maxFail : Nat)
    (rs : List Result) : Option DB × Option DB :=
  let preLoop := removeArtifact initial
  let final := runLoop maxFail initState rs
  (preLoop, writeArtifact (FlushTestResults maxWorkers final.runs) preLoop)

/-! ## The parsed-source cache (`ttcn3.ParseFile`) -/

/-- A source file as `ParseFile` sees it: the outcome of `f.Bytes()`. -/
structure SrcFile where
  bytes : Except String String
  deriving Repr

/-- Modelled from the spec: `fs.Open(path)` / `File.ID()` (not under src/)
provide a content-derived identity used as the memoization key; modelled
as the content (or read error) itself, tagged to keep it injective. -/
def fileID (f : SrcFile) : String :=
  match f.bytes with
  | .ok b => "ok:" ++ b
  | .error e => "err:" ++ e

/-- A `ttcn3.Tree`: the parsed root (abstracted to the list of its
definitions per file role) and the error, if any. -/
structure Tree where
  funcs : List Definition
  controls : List Definition
  err : Option String
  deriving DecidableEq, Repr

/-- Modelled from the spec: `memoize.Store` (not under src/) is a
memoization cache keyed by the file identity; modelled as an association
list from `fileID` to the cached tree. -/
def Cache : Type := List (String × Tree)

/-- Lookup in the parse cache. -/
def lookupTree : Cache → String → Option Tree
  | [], _ => none
  | (k, v) :: rest, id => if k = id then some v else lookupTree rest id

/-- `ttcn3.ParseFile` with the cache threaded explicitly: a hit returns
the cached tree (successful or failed) unchanged; a miss reads the bytes
(a read error yields a `Tree` holding only the error), parses them with
the external parser, and stores the resulting tree — errors included —
under the file's content-derived identity. -/
def ParseFile (parse : String → (List Definition × List Definition) × Option String)
    (c : Cache) (f : SrcFile) : Tree × Cache :=
  match lookupTree c (fileID f) with
  | some t => (t, c)
  | none =>
    let t : Tree :=
      match f.bytes with
      | .error e => { funcs := [], controls := [], err := some e }
      | .ok b =>
        { funcs := (parse b).1.1, controls := (parse b).1.2, err := (parse b).2 }
    (t, (fileID f, t) :: c)

/-- Parse a list of source files, threading the cache. -/
def parseAll (parse : String → (List Definition × List Definition) × Option String) :
    Cache → List SrcFile → List Tree × Cache
  | c, [] => ([], c)
  | c, f :: fs =>
    let p := ParseFile parse c f
    let q := parseAll parse p.2 fs
    (p.1 :: q.1, q.2)

/-- A parsed tree as the generators consume it. -/
def Tree.srcTree (t : Tree) : SrcTree :=
  { funcs := t.funcs, controls := t.controls }

/-- One full pass of the identifier generator over source files: parse
every file through the cache, then run `GenerateIDs` on the parsed
trees.  Returns the emitted identifiers and the cache left behind. -/
def generateFromFiles
    (parse : String → (List Definition × List Definition) × Option String)
    (c : Cache) (ids : List String) (files : List SrcFile) (policy : String)
    (b : Basket) : List String × Cache :=
  let p := parseAll parse c files
  (GenerateIDs ids (p.1.map Tree.srcTree) policy b, p.2)

/-! ## Concrete sample values used to evaluate the theorems -/

/-- A job that begins: Start event at time 5, observed at instant 6. -/
def resStart : Result :=
  { jobId := "m.A", jobName := "m.A", testDir := "wd",
    event := .start none 5, arrival := 6 }

/-- A passing terminal result. -/
def resPassStop : Result :=
  { jobId := "m.A", jobName := "m.A", testDir := "wd",
    event := .stop none "pass" 10, arrival := 10 }

/-- A failing terminal result. -/
def resFailStop : Result :=
  { jobId := "m.B", jobName := "m.B", testDir := "wd",
    event := .stop none "fail" 20, arrival := 20 }

/-- An infrastructure error result. -/
def resErr : Result :=
  { jobId := "m.C", jobName := "m.C", testDir := "wd",
    event := .error none "boom" 30, arrival := 30 }

/-- A sample basket predicate. -/
def wBasket : Basket := fun id _ => id != "skip.me"

/-- A sample test-case definition. -/
def wDef : Definition :=
  { id := "m.tc1", tags := [["stable"]], isTest := true }

/-- A sample control-part definition. -/
def wCtrl : Definition :=
  { id := "m.control", tags := [], isTest := false }

/-- A sample parsed source file. -/
def wTree : SrcTree :=
  { funcs := [wDef, wCtrl], controls := [wCtrl] }

/-- A sample source file whose read fails, exercising the cached-failure
path of `ParseFile`. -/
def wBadFile : SrcFile := { bytes := .error "no such file" }

/-! ## Lemmas about one loop iteration -/

theorem processResult_errorCount (mf : Nat) (s : LoopState) (r : Result) :
    ((processResult mf s r).1).errorCount
      = if IsPass r.event then s.errorCount else s.errorCount + 1 := by
  simp only [processResult]
  split <;> split <;> rfl

theorem processResult_snd (mf : Nat) (s : LoopState) (r : Result) :
    (processResult mf s r).2
      = decide (0 < mf ∧
          mf ≤ (if IsPass r.event then s.errorCount else s.errorCount + 1)) := by
  simp only [processResult]
  split <;> split <;> simp_all

theorem processResult_cancelled (mf : Nat) (s : LoopState) (r : Result) :
    ((processResult mf s r).1).cancelled
      = (s.cancelled || (processResult mf s r).2) := by
  simp only [processResult]
  split <;> split <;> simp

theorem processResult_runs (mf : Nat) (s : LoopState) (r : Result) :
    ((processResult mf s r).1).runs
      = if r.event.isStart then s.runs else s.runs ++ [entryOf s r] := by
  simp only [processResult, entryOf]
  split <;> split <;> rfl

theorem processResult_stamps (mf : Nat) (s : LoopState) (r : Result) :
    ((processResult mf s r).1).stamps
      = match lookupStamp s.stamps r.jobId with
        | some _ => s.stamps
        | none => (r.jobId, r.arrival) :: s.stamps := by
  simp only [processResult]
  split <;> split <;> rfl

theorem runLoop_cons (mf : Nat) (s : LoopState) (r : Result) (rs : List Result) :
    runLoop mf s (r :: rs)
      = if (processResult mf s r).2 then (processResult mf s r).1
        else runLoop mf ((processResult mf s r).1) rs := by
  rcases h : processResult mf s r with ⟨s', b⟩
  cases b <;> simp [runLoop, h]

theorem processedResults_cons (mf : Nat) (s : LoopState) (r : Result)
    (rs : List Result) :
    processedResults mf s (r :: rs)
      = if (processResult mf s r).2 then [r]
        else r :: processedResults mf ((processResult mf s r).1) rs := by
  rcases h : processResult mf s r with ⟨s', b⟩
  cases b <;> simp [processedResults, h]

theorem runTrace_cons (mf : Nat) (s : LoopState) (r : Result) (rs : List Result) :
    runTrace mf s (r :: rs)
      = if (processResult mf s r).2 then [(processResult mf s r).1]
        else (processResult mf s r).1 :: runTrace mf ((processResult mf s r).1) rs := by
  rcases h : processResult mf s r with ⟨s', b⟩
  cases b <;> simp [runTrace, h]

/-! ## Counting lemmas -/

theorem countFail_cons (r : Result) (rs : List Result) :
    countFail (r :: rs)
      = (if IsPass r.event then 0 else 1) + countFail rs := by
  simp only [countFail, List.filter]
  cases h : IsPass r.event <;> simp [h] <;> omega

theorem countFail_append (l₁ l₂ : List Result) :
    countFail (l₁ ++ l₂) = countFail l₁ + countFail l₂ := by
  simp [countFail, List.filter_append]

theorem countFail_take_le (l : List Result) {a b : Nat} (h : a ≤ b) :
    countFail (l.take a) ≤ countFail (l.take b) := by
  have hsplit : l.take b = l.take a ++ ((l.drop a).take (b - a)) := by
    rw [← List.take_add, Nat.add_sub_cancel' h]
  rw [hsplit, countFail_append]
  exact Nat.le_add_right _ _

theorem countFail_eq_countNonPassTerminal (l : List Result) :
    countFail l = countNonPassTerminal l := by
  unfold countFail countNonPassTerminal
  congr 1
  apply List.filter_congr
  intro r _
  cases hr : r.event with
  | start w t => simp [IsPass, Event.isStart, hr]
  | error w m t => simp [IsPass, Event.isStart, displayVerdictOf, hr]
  | stop w v t =>
    by_cases hv : v = "" <;>
      simp [IsPass, Event.isStart, displayVerdictOf, hr, hv]

/-! ## Structural lemmas about the whole loop -/

theorem runLoop_errorCount (mf : Nat) :
    ∀ (rs : List Result) (s : LoopState),
      (runLoop mf s rs).errorCount
        = s.errorCount + countFail (processedResults mf s rs) := by
  intro rs
  induction rs with
  | nil => intro s; simp [runLoop, processedResults, countFail]
  | cons r rs ih =>
    intro s
    rw [runLoop_cons, processedResults_cons]
    by_cases h : (processResult mf s r).2 = true
    · simp only [h, if_true, processResult_errorCount, countFail_cons, countFail]
      cases hp : IsPass r.event <;> simp [hp] <;> omega
    · simp only [Bool.not_eq_true] at h
      simp only [h, if_false, Bool.false_eq_true, ih, processResult_errorCount,
        countFail_cons]
      cases hp : IsPass r.event <;> simp [hp] <;> omega

theorem processedResults_maxFail_zero :
    ∀ (rs : List Result) (s : LoopState), processedResults 0 s rs = rs := by
  intro rs
  induction rs with
  | nil => intro s; simp [processedResults]
  | cons r rs ih =>
    intro s
    rw [processedResults_cons]
    have h : (processResult 0 s r).2 = false := by
      rw [processResult_snd]; simp
    simp [h, ih]

theorem runLoop_processedResults (mf : Nat) :
    ∀ (rs : List Result) (s : LoopState),
      runLoop mf s (processedResults mf s rs) = runLoop mf s rs := by
  intro rs
  induction rs with
  | nil => intro s; simp [processedResults]
  | cons r rs ih =>
    intro s
    rw [processedResults_cons]
    by_cases h : (processResult mf s r).2 = true
    · simp only [h, if_true]
      rw [runLoop_cons, runLoop_cons]
      simp [h, runLoop]
    · simp only [Bool.not_eq_true] at h
      simp only [h, Bool.false_eq_true, if_false]
      rw [runLoop_cons, runLoop_cons]
      simp [h, ih]

theorem runTrace_getElem_errorCount (mf : Nat) :
    ∀ (rs : List Result) (s : LoopState) (i : Nat) (st : LoopState),
      (runTrace mf s rs)[i]? = some st →
      st.errorCount
        = s.errorCount + countFail ((processedResults mf s rs).take (i + 1)) := by
  intro rs
  induction rs with
  | nil => intro s i st h; simp [runTrace] at h
  | cons r rs ih =>
    intro s i st h
    rw [runTrace_cons] at h
    rw [processedResults_cons]
    by_cases hb : (processResult mf s r).2 = true
    · simp only [hb, if_true] at h ⊢
      cases i with
      | zero =>
        simp only [List.getElem?_cons_zero, Option.some.injEq] at h
        subst h
        simp only [processResult_errorCount, List.take_succ_cons, List.take_nil,
          countFail_cons, countFail, List.filter_nil, List.length_nil]
        cases hp : IsPass r.event <;> simp [hp] <;> omega
      | succ n =>
        simp [List.getElem?_cons_succ] at h
    · simp only [Bool.not_eq_true] at hb
      simp only [hb, Bool.false_eq_true, if_false] at h ⊢
      cases i with
      | zero =>
        simp only [List.getElem?_cons_zero, Option.some.injEq] at h
        subst h
        simp only [processResult_errorCount, List.take_succ_cons, List.take_nil,
          countFail_cons, countFail, List.filter_nil, List.length_nil]
        cases hp : IsPass r.event <;> simp [hp] <;> omega
      | succ n =>
        simp only [List.getElem?_cons_succ] at h
        have := ih ((processResult mf s r).1) n st h
        rw [this, processResult_errorCount, List.take_succ_cons, countFail_cons]
        cases hp : IsPass r.event <;> simp [hp] <;> omega

/-! ## The ledger characterization -/

theorem firstArrival_append_singleton (id : String) (pre : List Result)
    (r : Result) :
    firstArrival id (pre ++ [r])
      = match firstArrival id pre with
        | some t => some t
        | none => if r.jobId = id then some r.arrival else none := by
  induction pre with
  | nil => simp [firstArrival]
  | cons x xs ih =>
    by_cases h : x.jobId = id <;> simp [firstArrival, h, ih]

theorem entryOf_eq_entrySpec (s : LoopState) (pre : List Result) (r : Result)
    (hinv : ∀ id, lookupStamp s.stamps id = firstArrival id pre) :
    entryOf s r = entrySpec pre r := by
  unfold entryOf entrySpec
  rw [hinv r.jobId]

theorem stamps_invariant_step (mf : Nat) (s : LoopState) (pre : List Result)
    (r : Result)
    (hinv : ∀ id, lookupStamp s.stamps id = firstArrival id pre) :
    ∀ id, lookupStamp ((processResult mf s r).1).stamps id
      = firstArrival id (pre ++ [r]) := by
  intro id
  rw [processResult_stamps, firstArrival_append_singleton]
  rcases hl : lookupStamp s.stamps r.jobId with _ | b
  · simp only [lookupStamp]
    by_cases hid : r.jobId = id
    · subst hid
      rw [if_pos rfl]
      have : firstArrival r.jobId pre = none := by rw [← hinv]; exact hl
      rw [this, if_pos rfl]
    · rw [if_neg hid, hinv id]
      rcases hfa : firstArrival id pre with _ | t
      · rw [if_neg hid]
      · rfl
  · have hfa : firstArrival r.jobId pre = some b := by rw [← hinv]; exact hl
    by_cases hid : r.jobId = id
    · subst hid
      rw [hfa, hinv r.jobId, hfa]
    · rw [hinv id]
      rcases hfa2 : firstArrival id pre with _ | t
      · rw [if_neg hid]
      · rfl

theorem runLoop_runs_spec (mf : Nat) :
    ∀ (rs : List Result) (s : LoopState) (pre : List Result),
      (∀ id, lookupStamp s.stamps id = firstArrival id pre) →
      (runLoop mf s rs).runs
        = s.runs ++ terminalEntriesAux pre (processedResults mf s rs) := by
  intro rs
  induction rs with
  | nil => intro s pre _; simp [runLoop, processedResults, terminalEntriesAux]
  | cons r rs ih =>
    intro s pre hinv
    have hentry : entryOf s r = entrySpec pre r := entryOf_eq_entrySpec s pre r hinv
    rw [runLoop_cons, processedResults_cons]
    by_cases hb : (processResult mf s r).2 = true
    · simp only [hb, if_true]
      rw [processResult_runs, hentry]
      simp only [terminalEntriesAux]
      cases hst : r.event.isStart <;> simp [hst]
    · simp only [Bool.not_eq_true] at hb
      simp only [hb, Bool.false_eq_true, if_false]
      have hinv' := stamps_invariant_step mf s pre r hinv
      rw [ih ((processResult mf s r).1) (pre ++ [r]) hinv', processResult_runs,
        hentry]
      simp only [terminalEntriesAux]
      cases hst : r.event.isStart <;> simp [hst, List.append_assoc]

theorem terminalEntriesAux_length :
    ∀ (ps pre : List Result),
      (terminalEntriesAux pre ps).length = countTerminal ps := by
  intro ps
  induction ps with
  | nil => intro pre; simp [terminalEntriesAux, countTerminal]
  | cons r rs ih =>
    intro pre
    simp only [terminalEntriesAux, countTerminal, List.filter]
    cases hst : r.event.isStart <;>
      simp [hst, ih (pre ++ [r]), countTerminal]

theorem terminalEntriesAux_map_nameVerdict :
    ∀ (ps pre : List Result),
      (terminalEntriesAux pre ps).map (fun e => (e.Name, e.Verdict))
        = (ps.filter fun r => !r.event.isStart).map
            (fun r => (displayNameOf r, displayVerdictOf r.event)) := by
  intro ps
  induction ps with
  | nil => intro pre; simp [terminalEntriesAux]
  | cons r rs ih =>
    intro pre
    simp only [terminalEntriesAux, List.filter]
    cases hst : r.event.isStart <;> simp [hst, ih (pre ++ [r]), entrySpec]

/-! ## Circuit-breaker lemmas -/

theorem processedResults_firstBreach (k : Nat) (hk : 0 < k) :
    ∀ (rs : List Result) (s : LoopState), s.errorCount < k →
      processedResults k s rs = (firstBreach k s.errorCount rs).getD rs := by
  intro rs
  induction rs with
  | nil => intro s _; simp [processedResults, firstBreach]
  | cons r rs ih =>
    intro s hs
    rw [processedResults_cons]
    have hec : ((processResult k s r).1).errorCount
        = if IsPass r.event then s.errorCount else s.errorCount + 1 :=
      processResult_errorCount k s r
    have hsnd : (processResult k s r).2
        = decide (0 < k ∧
            k ≤ (if IsPass r.event then s.errorCount else s.errorCount + 1)) :=
      processResult_snd k s r
    by_cases hbr : k ≤ (if IsPass r.event then s.errorCount else s.errorCount + 1)
    · have h2 : (processResult k s r).2 = true := by
        rw [hsnd]; simp [hk, hbr]
      simp only [h2, if_true]
      simp only [firstBreach]
      rw [if_pos hbr]
      rfl
    · have h2 : (processResult k s r).2 = false := by
        rw [hsnd]; simp [hbr]
      simp only [h2, Bool.false_eq_true, if_false]
      have hs' : ((processResult k s r).1).errorCount < k := by
        rw [hec]; omega
      have := ih ((processResult k s r).1) hs'
      rw [this, hec]
      simp only [firstBreach]
      rw [if_neg hbr]
      rcases hfb : firstBreach k
          (if IsPass r.event then s.errorCount else s.errorCount + 1) rs with _ | p
      · simp
      · simp

theorem runLoop_cancelled_firstBreach (k : Nat) (hk : 0 < k) :
    ∀ (rs : List Result) (s : LoopState), s.errorCount < k →
      s.cancelled = false →
      (runLoop k s rs).cancelled = (firstBreach k s.errorCount rs).isSome := by
  intro rs
  induction rs with
  | nil => intro s _ hc; simp [runLoop, firstBreach, hc]
  | cons r rs ih =>
    intro s hs hc
    rw [runLoop_cons]
    have hsnd : (processResult k s r).2
        = decide (0 < k ∧
            k ≤ (if IsPass r.event then s.errorCount else s.errorCount + 1)) :=
      processResult_snd k s r
    by_cases hbr : k ≤ (if IsPass r.event then s.errorCount else s.errorCount + 1)
    · have h2 : (processResult k s r).2 = true := by
        rw [hsnd]; simp [hk, hbr]
      simp only [h2, if_true]
      rw [processResult_cancelled, h2]
      simp only [firstBreach]
      rw [if_pos hbr]
      simp
    · have h2 : (processResult k s r).2 = false := by
        rw [hsnd]; simp [hbr]
      simp only [h2, Bool.false_eq_true, if_false]
      have hs' : ((processResult k s r).1).errorCount < k := by
        rw [processResult_errorCount]; omega
      have hc' : ((processResult k s r).1).cancelled = false := by
        rw [processResult_cancelled, h2, hc]; rfl
      have := ih ((processResult k s r).1) hs' hc'
      rw [this, processResult_errorCount]
      simp only [firstBreach]
      rw [if_neg hbr]
      rcases hfb : firstBreach k
          (if IsPass r.event then s.errorCount else s.errorCount + 1) rs with _ | p
      · simp
      · simp

/-! ## Pass-verdict lemmas -/

theorem IsPass_iff_verdict (e : Event) :
    IsPass e = true ↔ (e.isStart = false → displayVerdictOf e = "pass") := by
  cases e with
  | start w t => simp [IsPass, Event.isStart]
  | stop w v t =>
    simp only [IsPass, Event.isStart, displayVerdictOf]
    by_cases hv : v = ""
    · subst hv; simp
    · simp [hv]
  | error w m t => simp [IsPass, Event.isStart, displayVerdictOf]

theorem countFail_eq_zero (rs : List Result) :
    countFail rs = 0 ↔ ∀ r ∈ rs, IsPass r.event = true := by
  simp [countFail, List.length_eq_zero, List.filter_eq_nil]

/-! ## Parsed-source cache lemmas -/

theorem lookupTree_ParseFile
    (parse : String → (List Definition × List Definition) × Option String)
    (c : Cache) (f : SrcFile) :
    lookupTree ((ParseFile parse c f).2) (fileID f)
      = some ((ParseFile parse c f).1) := by
  unfold ParseFile
  rcases h : lookupTree c (fileID f) with _ | t
  · simp [h, lookupTree]
  · simp [h]

theorem ParseFile_preserves_lookup
    (parse : String → (List Definition × List Definition) × Option String)
    (c : Cache) (f : SrcFile) (k : String) (t : Tree)
    (h : lookupTree c k = some t) :
    lookupTree ((ParseFile parse c f).2) k = some t := by
  unfold ParseFile
  rcases hl : lookupTree c (fileID f) with _ | t'
  · simp only [hl, lookupTree]
    have hne : fileID f ≠ k := by
      intro he
      rw [he] at hl
      rw [hl] at h
      cases h
    rw [if_neg hne]
    exact h
  · simp [hl, h]

theorem ParseFile_hit
    (parse : String → (List Definition × List Definition) × Option String)
    (c : Cache) (f : SrcFile) (t : Tree)
    (h : lookupTree c (fileID f) = some t) :
    ParseFile parse c f = (t, c) := by
  unfold ParseFile
  rw [h]

theorem parseAll_preserves_lookup
    (parse : String → (List Definition × List Definition) × Option String) :
    ∀ (fs : List SrcFile) (c : Cache) (k : String) (t : Tree),
      lookupTree c k = some t →
      lookupTree ((parseAll parse c fs).2) k = some t := by
  intro fs
  induction fs with
  | nil => intro c k t h; simpa [parseAll] using h
  | cons f fs ih =>
    intro c k t h
    simp only [parseAll]
    exact ih _ k t (ParseFile_preserves_lookup parse c f k t h)

theorem parseAll_idem
    (parse : String → (List Definition × List Definition) × Option String) :
    ∀ (fs : List SrcFile) (c : Cache),
      parseAll parse ((parseAll parse c fs).2) fs = parseAll parse c fs := by
  intro fs
  induction fs with
  | nil => intro c; simp [parseAll]
  | cons f fs ih =>
    intro c
    have h1 : lookupTree ((parseAll parse ((ParseFile parse c f).2) fs).2)
        (fileID f) = some ((ParseFile parse c f).1) :=
      parseAll_preserves_lookup parse fs _ (fileID f) _
        (lookupTree_ParseFile parse c f)
    conv_lhs => simp only [parseAll]
    rw [ParseFile_hit parse _ f _ h1]
    simp only [parseAll]
    rw [ih ((ParseFile parse c f).2)]

/-! ## Generator cancellation-model lemmas -/

theorem GenerateIDsRun_spec :
    ∀ (ids : List String) (n : Nat),
      GenerateIDsRun n ids = (ids.take n, decide (ids.length ≤ n)) := by
  intro ids
  induction ids with
  | nil => intro n; simp [GenerateIDsRun]
  | cons id ids ih =>
    intro n
    cases n with
    | zero => simp [GenerateIDsRun]
    | succ n => simp [GenerateIDsRun, ih n, Nat.succ_le_succ_iff]

theorem genFileRun_spec (b : Basket) :
    ∀ (ds : List Definition) (n : Nat),
      genFileRun b n ds
        = ((ds.flatMap (generateOne b)).take n,
           n - (ds.flatMap (generateOne b)).length,
           decide (n < (ds.flatMap (generateOne b)).length)) := by
  intro ds
  induction ds with
  | nil => intro n; simp [genFileRun]
  | cons d ds ih =>
    intro n
    by_cases hm : b d.id d.tags
    · cases n with
      | zero =>
        simp [genFileRun, hm, generateOne]
      | succ n =>
        simp [genFileRun, hm, generateOne, ih n, Nat.succ_sub_succ,
          Nat.succ_lt_succ_iff]
    · simp [genFileRun, hm, generateOne, ih n]

theorem GenerateTestsRun_spec (b : Basket) :
    ∀ (files : List SrcTree) (n : Nat),
      GenerateTestsRun b n files = ((GenerateTestsList b files).take n, true) := by
  intro files
  induction files with
  | nil => intro n; simp [GenerateTestsRun, GenerateTestsList]
  | cons t ts ih =>
    intro n
    simp only [GenerateTestsRun, GenerateTestsList, List.flatMap_cons,
      genFileRun_spec b]
    by_cases h : n < ((t.funcs.filter (·.isTest)).flatMap (generateOne b)).length
    · simp only [h, decide_True, if_true]
      rw [List.take_append_eq_append_take]
      have h0 : n - ((t.funcs.filter (·.isTest)).flatMap (generateOne b)).length
          = 0 := by omega
      rw [h0]
      simp [GenerateTestsList]
    · simp only [h, decide_False, Bool.false_eq_true, if_false, ih]
      rw [List.take_append_eq_append_take]
      have hlen : ((t.funcs.filter (·.isTest)).flatMap (generateOne b)).length
          ≤ n := by omega
      rw [List.take_of_length_le hlen]
      simp [GenerateTestsList]

theorem GenerateControlsRun_spec (b : Basket) :
    ∀ (files : List SrcTree) (n : Nat),
      GenerateControlsRun b n files
        = ((GenerateControlsList b files).take n, true) := by
  intro files
  induction files with
  | nil => intro n; simp [GenerateControlsRun, GenerateControlsList]
  | cons t ts ih =>
    intro n
    simp only [GenerateControlsRun, GenerateControlsList, List.flatMap_cons,
      genFileRun_spec b]
    by_cases h : n < (t.controls.flatMap (generateOne b)).length
    · simp only [h, decide_True, if_true]
      rw [List.take_append_eq_append_take]
      have h0 : n - (t.controls.flatMap (generateOne b)).length = 0 := by omega
      rw [h0]
      simp [GenerateControlsList]
    · simp only [h, decide_False, Bool.false_eq_true, if_false, ih]
      rw [List.take_append_eq_append_take]
      have hlen : (t.controls.flatMap (generateOne b)).length ≤ n := by omega
      rw [List.take_of_length_le hlen]
      simp [GenerateControlsList]

/-! ## The claims -/

/-- C1: at every point of the aggregation loop the error counter equals
the number of terminal Results observed so far whose recorded verdict is
not the pass verdict, the counter is monotonically non-decreasing along
the run, and processing a Start event never changes it. -/
theorem c1_errorCount_invariant (mf : Nat) (rs : List Result) :
    (∀ (i : Nat) (st : LoopState),
        (runTrace mf initState rs)[i]? = some st →
        st.errorCount
          = countNonPassTerminal
              ((processedResults mf initState rs).take (i + 1)))
  ∧ (∀ (i j : Nat) (si sj : LoopState), i ≤ j →
        (runTrace mf initState rs)[i]? = some si →
        (runTrace mf initState rs)[j]? = some sj →
        si.errorCount ≤ sj.errorCount)
  ∧ (∀ (s : LoopState) (r : Result), r.event.isStart = true →
        ((processResult mf s r).1).errorCount = s.errorCount) := by
  refine ⟨?_, ?_, ?_⟩
  · intro i st h
    have heq := runTrace_getElem_errorCount mf rs initState i st h
    rw [heq, countFail_eq_countNonPassTerminal]
    simp [initState]
  · intro i j si sj hij hi hj
    have h1 := runTrace_getElem_errorCount mf rs initState i si hi
    have h2 := runTrace_getElem_errorCount mf rs initState j sj hj
    rw [h1, h2]
    have := countFail_take_le (processedResults mf initState rs)
      (Nat.add_le_add_right hij 1)
    omega
  · intro s r h
    have hp : IsPass r.event = true := by
      cases he : r.event with
      | start w t => rw [IsPass]
      | stop w v t => rw [he] at h; simp [Event.isStart] at h
      | error w m t => rw [he] at h; simp [Event.isStart] at h
    rw [processResult_errorCount, if_pos hp]

/-- Witness for C1 at a concrete run: one failing Stop event, and a Start
event processed from the initial state. -/
theorem c1_errorCount_invariant_witness :
    ((runTrace 0 initState [resFailStop]).headD initState).errorCount
        = countNonPassTerminal
            ((processedResults 0 initState [resFailStop]).take 1)
      ∧ ((processResult 0 initState resStart).1).errorCount
        = initState.errorCount := by
  have h0 : (runTrace 0 initState [resFailStop])[0]?
      = some ((runTrace 0 initState [resFailStop]).headD initState) := by decide
  exact ⟨(c1_errorCount_invariant 0 [resFailStop]).1 0 _ h0,
    (c1_errorCount_invariant 0 [resFailStop]).2.2 initState resStart rfl⟩

/-- C2: with `MaxFail = k > 0` the loop consumes exactly the shortest
prefix of the stream on which the failure count reaches `k` (the whole
stream if it never does), the run is cancelled exactly when such a prefix
exists, and the final loop state — the ledger included — is entirely
determined by that consumed prefix, so no later terminal event is
appended. -/
theorem c2_circuit_breaker (k : Nat) (rs : List Result) (hk : 0 < k) :
    processedResults k initState rs = (firstBreach k 0 rs).getD rs
  ∧ (runLoop k initState rs).cancelled = (firstBreach k 0 rs).isSome
  ∧ runLoop k initState (processedResults k initState rs)
      = runLoop k initState rs := by
  refine ⟨?_, ?_, runLoop_processedResults k rs initState⟩
  · have := processedResults_firstBreach k hk rs initState
      (by simpa [initState] using hk)
    simpa [initState] using this
  · have := runLoop_cancelled_firstBreach k hk rs initState
      (by simpa [initState] using hk) rfl
    simpa [initState] using this

/-- Witness for C2: with `MaxFail = 1` and a failing first result the loop
stops after that result, cancelled, and the passing second result is never
consumed. -/
theorem c2_circuit_breaker_witness :
    (processedResults 1 initState [resFailStop, resPassStop]
        = (firstBreach 1 0 [resFailStop, resPassStop]).getD
            [resFailStop, resPassStop]
      ∧ (runLoop 1 initState [resFailStop, resPassStop]).cancelled
        = (firstBreach 1 0 [resFailStop, resPassStop]).isSome
      ∧ runLoop 1 initState
          (processedResults 1 initState [resFailStop, resPassStop])
        = runLoop 1 initState [resFailStop, resPassStop])
  ∧ processedResults 1 initState [resFailStop, resPassStop] = [resFailStop] :=
  ⟨c2_circuit_breaker 1 [resFailStop, resPassStop] (by decide), by decide⟩

/-- C3: with `MaxFail = 0` and the stream consumed to its natural end,
`nttRun` returns nil exactly when every terminal event's recorded verdict
is the pass verdict; otherwise it returns the `ErrCommandFailed` wrap
carrying the error count. -/
theorem c3_exit_status (rs : List Result) :
    (nttRunResult 0 rs = RunResult.success ↔
        ∀ r ∈ rs, r.event.isStart = false → displayVerdictOf r.event = "pass")
  ∧ (nttRunResult 0 rs ≠ RunResult.success →
        nttRunResult 0 rs
          = RunResult.commandFailed (countNonPassTerminal rs)) := by
  have hec : (runLoop 0 initState rs).errorCount = countFail rs := by
    rw [runLoop_errorCount, processedResults_maxFail_zero]
    simp [initState]
  constructor
  · constructor
    · intro h r hr hterm
      unfold nttRunResult at h
      by_cases h0 : 0 < (runLoop 0 initState rs).errorCount
      · simp [h0] at h
      · have hz : countFail rs = 0 := by omega
        have hall := (countFail_eq_zero rs).1 hz r hr
        exact (IsPass_iff_verdict r.event).1 hall hterm
    · intro h
      have hz : countFail rs = 0 :=
        (countFail_eq_zero rs).2
          (fun r hr => (IsPass_iff_verdict r.event).2 (h r hr))
      unfold nttRunResult
      rw [if_neg]
      rw [hec, hz]
      omega
  · intro h
    unfold nttRunResult at h ⊢
    by_cases h0 : 0 < (runLoop 0 initState rs).errorCount
    · rw [if_pos h0] at h ⊢
      rw [hec, countFail_eq_countNonPassTerminal]
    · rw [if_neg h0] at h
      exact absurd rfl h

/-- Witness for C3: an all-pass run succeeds; a run with one failure
returns the `ErrCommandFailed` wrap with count 1. -/
theorem c3_exit_status_witness :
    nttRunResult 0 [resPassStop] = RunResult.success
  ∧ nttRunResult 0 [resPassStop, resFailStop]
      = RunResult.commandFailed
          (countNonPassTerminal [resPassStop, resFailStop]) :=
  ⟨(c3_exit_status [resPassStop]).1.2 (by decide),
   (c3_exit_status [resPassStop, resFailStop]).2 (by decide)⟩

/-- C4: the ledger holds exactly one entry per terminal event the loop
processed — in order, with the display name and recorded verdict of that
event — and no entry for any Start event, so its length is the number of
terminal events observed. -/
theorem c4_ledger_per_terminal (mf : Nat) (rs : List Result) :
    (runLoop mf initState rs).runs.length
        = countTerminal (processedResults mf initState rs)
  ∧ (runLoop mf initState rs).runs.map (fun e => (e.Name, e.Verdict))
      = ((processedResults mf initState rs).filter
            fun r => !r.event.isStart).map
          (fun r => (displayNameOf r, displayVerdictOf r.event)) := by
  have hruns := runLoop_runs_spec mf rs initState []
    (fun id => by simp [initState, lookupStamp, firstArrival])
  rw [hruns]
  simp only [initState, List.nil_append]
  exact ⟨terminalEntriesAux_length _ [], terminalEntriesAux_map_nameVerdict _ []⟩

/-- C5: every ledger entry of the loop carries `End` equal to its event's
own timestamp and `Begin` equal to the instant the job's id was first
observed within the processed stream — equal to `End` when the terminal
event itself is the id's first observation — which is what the printed
`duration = End - Begin` subtracts. -/
theorem c5_begin_end_of_entries (mf : Nat) (rs : List Result) :
    (runLoop mf initState rs).runs
      = terminalEntries (processedResults mf initState rs) := by
  have hruns := runLoop_runs_spec mf rs initState []
    (fun id => by simp [initState, lookupStamp, firstArrival])
  rw [hruns]
  simp [initState, terminalEntries]

/-- C6: `GenerateIDs` resolves the policy in fixed order — a non-empty
explicit list is emitted verbatim, else the trimmed lower-cased policy
"old" selects control parts, else test-case definitions — and in the two
discovered policies an identifier is emitted only when the basket matches
it together with its definition's tags. -/
theorem c6_policy_resolution (ids : List String) (files : List SrcTree)
    (policy : String) (b : Basket) :
    (ids ≠ [] → GenerateIDs ids files policy b = ids)
  ∧ (ids = [] → trimStr (toLowerStr policy) = "old" →
      GenerateIDs ids files policy b = GenerateControlsList b files)
  ∧ (ids = [] → trimStr (toLowerStr policy) ≠ "old" →
      GenerateIDs ids files policy b = GenerateTestsList b files)
  ∧ (∀ x ∈ GenerateControlsList b files,
      ∃ t ∈ files, ∃ d ∈ t.controls, b d.id d.tags = true ∧ x = d.id)
  ∧ (∀ x ∈ GenerateTestsList b files,
      ∃ t ∈ files, ∃ d ∈ t.funcs,
        d.isTest = true ∧ b d.id d.tags = true ∧ x = d.id) := by
  refine ⟨?_, ?_, ?_, ?_, ?_⟩
  · intro h
    unfold GenerateIDs
    rw [if_pos (List.length_pos.mpr h)]
  · intro h hp
    subst h
    unfold GenerateIDs
    simp [hp]
  · intro h hp
    subst h
    unfold GenerateIDs
    simp [hp]
  · intro x hx
    unfold GenerateControlsList at hx
    rw [List.mem_flatMap] at hx
    obtain ⟨t, ht, hx⟩ := hx
    rw [List.mem_flatMap] at hx
    obtain ⟨d, hd, hxd⟩ := hx
    unfold generateOne at hxd
    by_cases hb : b d.id d.tags
    · rw [if_pos hb] at hxd
      simp only [List.mem_singleton] at hxd
      exact ⟨t, ht, d, hd, hb, hxd⟩
    · rw [if_neg hb] at hxd
      simp at hxd
  · intro x hx
    unfold GenerateTestsList at hx
    rw [List.mem_flatMap] at hx
    obtain ⟨t, ht, hx⟩ := hx
    rw [List.mem_flatMap] at hx
    obtain ⟨d, hd, hxd⟩ := hx
    rw [List.mem_filter] at hd
    unfold generateOne at hxd
    by_cases hb : b d.id d.tags
    · rw [if_pos hb] at hxd
      simp only [List.mem_singleton] at hxd
      exact ⟨t, ht, d, hd.1, by simpa using hd.2, hb, hxd⟩
    · rw [if_neg hb] at hxd
      simp at hxd

/-- Witness for C6: an explicit list beats everything, and a blank-padded
upper-case "old" policy selects the control parts. -/
theorem c6_policy_resolution_witness :
    GenerateIDs ["x.control"] [wTree] " OLD " wBasket = ["x.control"]
  ∧ GenerateIDs [] [wTree] " OLD " wBasket
      = GenerateControlsList wBasket [wTree]
  ∧ GenerateIDs [] [wTree] "default" wBasket
      = GenerateTestsList wBasket [wTree] :=
  ⟨(c6_policy_resolution ["x.control"] [wTree] " OLD " wBasket).1 (by decide),
   (c6_policy_resolution [] [wTree] " OLD " wBasket).2.1 rfl (by decide),
   (c6_policy_resolution [] [wTree] "default" wBasket).2.2.1 rfl (by decide)⟩

/-- C7, counterexample: the explicit-list generator goroutine
(`GenerateIDsWithContext`) never consults the cancellation context — its
send is a bare `out <- id` with no `ctx.Done()` branch — so once the
context is cancelled and the consumer stops receiving, the goroutine
blocks forever instead of terminating, contradicting the claim for the
explicit-list policy. -/
theorem c7_counterexample :
    (GenerateIDsRun 0 ["x.control"]).2 = false := rfl

/-- C7, amended: for the two discovered policies (control parts and test
cases), once the context is cancelled and the consumer stops receiving,
the generator delivers nothing beyond the identifiers already received
(the first `n` of the full scan), abandons the remaining definitions and
files, and its goroutine terminates; the explicit-list generator also
delivers only what the consumer accepted, but its goroutine terminates
only when the whole list was accepted — it ignores the cancellation
context. -/
theorem c7_amended_cancellation (b : Basket) (n : Nat) (files : List SrcTree)
    (ids : List String) :
    (GenerateTestsRun b n files).2 = true
  ∧ (GenerateTestsRun b n files).1 = (GenerateTestsList b files).take n
  ∧ (GenerateControlsRun b n files).2 = true
  ∧ (GenerateControlsRun b n files).1 = (GenerateControlsList b files).take n
  ∧ (GenerateIDsRun n ids).1 = ids.take n
  ∧ ((GenerateIDsRun n ids).2 = true ↔ ids.length ≤ n) := by
  have h1 := GenerateTestsRun_spec b files n
  have h2 := GenerateControlsRun_spec b files n
  have h3 := GenerateIDsRun_spec ids n
  refine ⟨by rw [h1], by rw [h1], by rw [h2], by rw [h2], by rw [h3],
    by rw [h3]; simp⟩

/-- Witness for C7's amended statement: cancellation after one delivered
identifier stops the test-case scan with the goroutine terminated. -/
theorem c7_amended_cancellation_witness :
    (GenerateTestsRun wBasket 1 [wTree, wTree]).2 = true
  ∧ (GenerateTestsRun wBasket 1 [wTree, wTree]).1
      = (GenerateTestsList wBasket [wTree, wTree]).take 1 :=
  ⟨(c7_amended_cancellation wBasket 1 [wTree, wTree] []).1,
   (c7_amended_cancellation wBasket 1 [wTree, wTree] []).2.1⟩

/-- C8: the results path holds nothing while the loop runs (the stale
artifact is removed first), the artifact written at exit is the version-1
`RunDB` with exactly one session whose `MaxJobs` is `MaxWorkers`, expected
verdict "pass" and runs list exactly the current run's ledger, and none of
it depends on what a previous invocation had left at the path. -/
theorem c8_persisted_artifact (initial initial' : Option DB)
    (maxWorkers maxFail : Nat) (rs : List Result) :
    (nttRunArtifact initial maxWorkers maxFail rs).1 = none
  ∧ (nttRunArtifact initial maxWorkers maxFail rs).2
      = some { Version := "1"
               Sessions := [{ Id := "1", MaxJobs := maxWorkers,
                              ExpectedVerdict := "pass",
                              Runs := (runLoop maxFail initState rs).runs }] }
  ∧ nttRunArtifact initial maxWorkers maxFail rs
      = nttRunArtifact initial' maxWorkers maxFail rs :=
  ⟨rfl, rfl, rfl⟩

/-- C9: with the parse cache threaded through, a second full generator
pass over the same files with the same basket and policy returns exactly
the same identifier list and leaves the cache untouched; in particular
re-parsing the same files — parse failures included — serves every tree
from the cache, so both passes see identical parsed trees. -/
theorem c9_selection_idempotent
    (parse : String → (List Definition × List Definition) × Option String)
    (c : Cache) (ids : List String) (files : List SrcFile) (policy : String)
    (b : Basket) :
    generateFromFiles parse
        ((generateFromFiles parse c ids files policy b).2) ids files policy b
      = generateFromFiles parse c ids files policy b
  ∧ parseAll parse ((parseAll parse c files).2) files = parseAll parse c files
  ∧ ∀ f : SrcFile,
      ParseFile parse ((ParseFile parse c f).2) f
        = ((ParseFile parse c f).1, (ParseFile parse c f).2) := by
  have h := parseAll_idem parse files c
  refine ⟨?_, h, ?_⟩
  · simp only [generateFromFiles]
    rw [h]
  · intro f
    exact ParseFile_hit parse _ f _ (lookupTree_ParseFile parse c f)

/-- Witness for C9: a file whose read fails is parsed once, its failure
tree is cached, and the second generator pass returns the same (empty)
identifier list with the cache unchanged. -/
theorem c9_selection_idempotent_witness :
    generateFromFiles (fun b => (([], []), some b)
        : String → (List Definition × List Definition) × Option String)
        ((generateFromFiles (fun b => (([], []), some b)) [] [] [wBadFile]
            "" wBasket).2) [] [wBadFile] "" wBasket
      = generateFromFiles (fun b => (([], []), some b)) [] [] [wBadFile]
          "" wBasket :=
  (c9_selection_idempotent (fun b => (([], []), some b)) [] [] [wBadFile]
    "" wBasket).1

/-- C10: the recorded verdict is derived deterministically from the event:
an Error event yields verdict "fatal" with the `Reason` field carrying the
error's message, a Stop event with an empty verdict string yields verdict
"none", and any other Stop event yields its own verdict string
unchanged. -/
theorem c10_verdict_derivation (mf : Nat) (s : LoopState) (r : Result) :
    (∀ (w : Option String) (m : String) (t : Int),
        r.event = Event.error w m t →
        ∃ e : Run, ((processResult mf s r).1).runs = s.runs ++ [e]
          ∧ e.Verdict = "fatal" ∧ e.Reason = m ∧ e.End = t)
  ∧ (∀ (w : Option String) (t : Int),
        r.event = Event.stop w "" t →
        ∃ e : Run, ((processResult mf s r).1).runs = s.runs ++ [e]
          ∧ e.Verdict = "none" ∧ e.Reason = "")
  ∧ (∀ (w : Option String) (v : String) (t : Int), v ≠ "" →
        r.event = Event.stop w v t →
        ∃ e : Run, ((processResult mf s r).1).runs = s.runs ++ [e]
          ∧ e.Verdict = v ∧ e.Reason = "") := by
  refine ⟨?_, ?_, ?_⟩
  · intro w m t he
    refine ⟨entryOf s r, ?_, ?_, ?_, ?_⟩
    · rw [processResult_runs, he]; rfl
    · simp [entryOf, he, displayVerdictOf]
    · simp [entryOf, he, reasonOf]
    · simp [entryOf, he, Event.time]
  · intro w t he
    refine ⟨entryOf s r, ?_, ?_, ?_⟩
    · rw [processResult_runs, he]; rfl
    · simp [entryOf, he, displayVerdictOf]
    · simp [entryOf, he, reasonOf]
  · intro w v t hv he
    refine ⟨entryOf s r, ?_, ?_, ?_⟩
    · rw [processResult_runs, he]; rfl
    · simp [entryOf, he, displayVerdictOf, hv]
    · simp [entryOf, he, reasonOf]

/-- Witness for C10: the concrete error result is ledgered with verdict
"fatal" and its message as reason. -/
theorem c10_verdict_derivation_witness :
    ((processResult 0 initState resErr).1).runs
      = [{ Name := "m.C", Verdict := "fatal", Begin := 30, End := 30,
           WorkingDir := "wd", Reason := "boom" }] := by
  obtain ⟨e, he, hv, hr, hEnd⟩ :=
    (c10_verdict_derivation 0 initState resErr).1 none "boom" 30 rfl
  decide

end Ntt
